import Mathlib

/-!
Verification of the utool/uman test-execution engine (repository sjg20/utool)
against its natural-language specification.

The development shallowly embeds the relevant Python functions from
`src/utool_pkg/cmdtest.py`, `src/uman_pkg/cmdtest.py` and
`src/uman_pkg/cmdpy.py` as executable Lean definitions:

* Python strings become `String`/`List Char`; byte chunks of process output
  become `List Char` (the claims about the streaming parser are restricted to
  ASCII streams, on which UTF-8 decoding is the identity byte-by-byte).
* Functions that perform I/O (`nm`/`readelf` invocation, file reads, process
  launching) are split at their pure core: the pure computation is embedded
  and the I/O result (the list of `(name, flags)` records, the decoded output
  chunks, the per-worker results, the pass/fail outcome of one `pollute_run`
  probe) becomes an explicit argument.
* Exceptions (`IndexError`, `TypeError`) are modelled with `Option`.

Definitions keep the source's snake_case names where possible.
-/

/-! ## Basic string helpers (Python string operations over `List Char`) -/

/-- `isPre p s` is true when the char list `p` is a prefix of `s`
(Python `s.startswith(p)` restricted to the part of `s` in view). -/
def isPre : List Char → List Char → Bool
  | [], _ => true
  | _ :: _, [] => false
  | p :: ps, c :: cs => p == c && isPre ps cs

/-- Strip the prefix `p` from `s`, returning the remainder;
`none` when `p` is not a prefix of `s`. -/
def drop_pre : List Char → List Char → Option (List Char)
  | [], s => some s
  | _ :: _, [] => none
  | p :: ps, c :: cs => if p == c then drop_pre ps cs else none

/-- Split `s` at the first occurrence of the (non-empty) separator `sep`:
`some (before, after)` with the separator removed, mirroring Python
`s.split(sep, 1)` when `sep in s`; `none` when `sep` does not occur. -/
def break_on (sep : List Char) : List Char → Option (List Char × List Char)
  | [] => none
  | c :: cs =>
      if isPre sep (c :: cs) then some ([], (c :: cs).drop sep.length)
      else
        match break_on sep cs with
        | some (a, b) => some (c :: a, b)
        | none => none

/-- Python `sub in s` (substring containment) for non-empty `sub`. -/
def str_in (sub s : String) : Bool :=
  (break_on sub.toList s.toList).isSome

/-- Python `s.endswith(pat)`. -/
def ends_with (s pat : String) : Bool :=
  isPre pat.toList.reverse s.toList.reverse

/-- Python `int(digits)` on a non-empty run of decimal digits. -/
def natOfDigits (ds : List Char) : Nat :=
  ds.foldl (fun n c => n * 10 + (c.toNat - '0'.toNat)) 0

/-- The characters Python `str.isspace` recognises (ASCII range), used by
`str.split(None, ...)` and `str.strip()`. -/
def py_isspace (c : Char) : Bool :=
  c == ' ' || c == '\t' || c == '\n' || c == '\r' || c == '\x0b' || c == '\x0c'

/-- ASCII `\w` word characters used by the `re` patterns in the source
(`[A-Za-z0-9_]`; the test/suite names in the binary are ASCII). -/
def word_char (c : Char) : Bool :=
  c.isAlpha || c.isDigit || c == '_'

/-- Python `arg.split(None, 1)`: strip leading whitespace, split off the first
whitespace-free field, strip the delimiter run, keep the remainder verbatim.
Returns `[]` (Python `[]`), `[first]` or `[first, rest]`. -/
def split_ws1 (s : List Char) : List (List Char) :=
  let s1 := s.dropWhile py_isspace
  if s1 = [] then []
  else
    let first := s1.takeWhile (fun c => !py_isspace c)
    let rest0 := s1.dropWhile (fun c => !py_isspace c)
    let rest := rest0.dropWhile py_isspace
    if rest = [] then [first] else [first, rest]

/-! ## Count predictor

`predict_test_count` (src/uman_pkg/cmdtest.py:123-155 and, with an extra
pattern filter, src/utool_pkg/cmdtest.py:113-158).  The I/O part
(`get_test_flags`, which runs `nm`/`readelf` and reads `struct unit_test`
records out of the binary) is replaced by passing the resulting list of
`(test_name, flags)` records directly. -/

/-- `UTF_FLAT_TREE` from include/test/test.h. -/
def UTF_FLAT_TREE : Nat := 0x08
/-- `UTF_LIVE_TREE` from include/test/test.h. -/
def UTF_LIVE_TREE : Nat := 0x10
/-- `UTF_DM` from include/test/test.h. -/
def UTF_DM : Nat := 0x80

/-- Python truthiness of `flags & mask` for a bitmask test. -/
def has_flag (flags mask : Nat) : Bool :=
  flags &&& mask != 0

/-- The counting loop shared verbatim by both packages' `predict_test_count`
(`for name, flags in test_flags: ...`). -/
def count_loop (test_flags : List (String × Nat)) (full : Bool) : Nat :=
  test_flags.foldl
    (fun count nf =>
      let name := nf.1
      let flags := nf.2
      -- Tests with UTF_FLAT_TREE only run on flat tree
      if has_flag flags UTF_FLAT_TREE then
        if full then count + 1 else count
      else
        -- All other tests run once on live tree
        let count := count + 1
        -- Tests with UTF_DM run again on flat tree, except video tests
        if full && has_flag flags UTF_DM && !has_flag flags UTF_LIVE_TREE then
          -- Video tests skip flattree (except video_base)
          if !str_in "video" name || str_in "video_base" name then count + 1
          else count
        else count)
    0

/-- `predict_test_count(sandbox, suite, full)` from src/uman_pkg/cmdtest.py,
with the records produced by `get_test_flags` passed in directly. -/
def predict_test_count (test_flags : List (String × Nat)) (full : Bool) : Nat :=
  if test_flags = [] then 0
  else count_loop test_flags full

/-- `predict_test_count(sandbox, suite, flattree, pattern)` from
src/utool_pkg/cmdtest.py: same loop, but when a pattern is given the records
are first filtered.  The pattern filter (`fnmatch.fnmatch` on the name with
the `<suite>_test_` prefix stripped, an external-library glob) is abstracted
as an opaque per-name predicate `m`, which is faithful because the filter
does not depend on `flattree`. -/
def utool_predict_test_count (test_flags : List (String × Nat)) (flattree : Bool)
    (m : Option (String → Bool)) : Nat :=
  if test_flags = [] then 0
  else
    let tf := match m with
      | none => test_flags
      | some f => test_flags.filter (fun nf => f nf.1)
    count_loop tf flattree

/-- The per-record contribution as the claim states it: a `FLAT_TREE` record
contributes 1 when `flatTreeEnabled` and 0 otherwise; any other record
contributes 1, plus an additional 1 when `flatTreeEnabled`, `UTF_DM` is set,
`UTF_LIVE_TREE` is clear and the name either does not contain "video" or
contains "video_base". -/
def record_contrib (full : Bool) (nf : String × Nat) : Nat :=
  if has_flag nf.2 UTF_FLAT_TREE then
    if full then 1 else 0
  else
    1 + (if full && has_flag nf.2 UTF_DM && !has_flag nf.2 UTF_LIVE_TREE
            && (!str_in "video" nf.1 || str_in "video_base" nf.1)
         then 1 else 0)

theorem count_step (full : Bool) (acc : Nat) (nf : String × Nat) :
    (let name := nf.1
     let flags := nf.2
     if has_flag flags UTF_FLAT_TREE then
       if full then acc + 1 else acc
     else
       let count := acc + 1
       if full && has_flag flags UTF_DM && !has_flag flags UTF_LIVE_TREE then
         if !str_in "video" name || str_in "video_base" name then count + 1
         else count
       else count)
    = acc + record_contrib full nf := by
  rcases nf with ⟨name, flags⟩
  simp only [record_contrib]
  by_cases h1 : has_flag flags UTF_FLAT_TREE = true
  · simp only [if_pos h1]
    cases full <;> rfl
  · simp only [if_neg h1]
    by_cases h2 : (full && has_flag flags UTF_DM
        && !has_flag flags UTF_LIVE_TREE) = true
    · by_cases h3 : (!str_in "video" name || str_in "video_base" name) = true
      · rw [if_pos h2, if_pos h3, if_pos (by simp [h2, h3])]
      · rw [if_pos h2, if_neg h3, if_neg (by simp [h3])]
    · rw [if_neg h2, if_neg (by simp [h2])]

theorem count_loop_acc (test_flags : List (String × Nat)) (full : Bool) :
    ∀ acc : Nat,
      test_flags.foldl
        (fun count nf =>
          let name := nf.1
          let flags := nf.2
          if has_flag flags UTF_FLAT_TREE then
            if full then count + 1 else count
          else
            let count := count + 1
            if full && has_flag flags UTF_DM && !has_flag flags UTF_LIVE_TREE then
              if !str_in "video" name || str_in "video_base" name then count + 1
              else count
            else count)
        acc
      = acc + (test_flags.map (record_contrib full)).sum := by
  induction test_flags with
  | nil => intro acc; simp
  | cons nf rest ih =>
      intro acc
      simp only [List.foldl_cons, List.map_cons, List.sum_cons]
      rw [ih, count_step full acc nf]
      omega

theorem count_loop_eq_sum (test_flags : List (String × Nat)) (full : Bool) :
    count_loop test_flags full = (test_flags.map (record_contrib full)).sum := by
  have := count_loop_acc test_flags full 0
  simpa [count_loop] using this

/-- C1: `predict_test_count` is the sum of the per-record contributions, and
on the records `[("test_acpi", 0), ("test_gpio", UTF_DM)]` it returns 2
without flat tree and 3 with flat tree. -/
theorem predict_test_count_is_contrib_sum :
    (∀ (test_flags : List (String × Nat)) (full : Bool),
       predict_test_count test_flags full
         = (test_flags.map (record_contrib full)).sum)
    ∧ predict_test_count [("test_acpi", 0), ("test_gpio", UTF_DM)] false = 2
    ∧ predict_test_count [("test_acpi", 0), ("test_gpio", UTF_DM)] true = 3 := by
  refine ⟨fun test_flags full => ?_, by decide, by decide⟩
  cases test_flags with
  | nil => simp [predict_test_count]
  | cons nf rest =>
      rw [predict_test_count, if_neg (by simp)]
      exact count_loop_eq_sum _ _

/-- C5: the per-record contribution never decreases when flat tree is
enabled. -/
theorem record_contrib_mono (nf : String × Nat) :
    record_contrib false nf ≤ record_contrib true nf := by
  unfold record_contrib
  by_cases h1 : has_flag nf.2 UTF_FLAT_TREE = true
  · simp [h1]
  · simp only [if_neg h1, Bool.false_and]
    rw [if_neg (fun hb => Bool.false_ne_true hb)]
    exact Nat.add_le_add_left (Nat.zero_le _) 1

/-- C5: for every record list and every pattern filter, the predicted count
with flat tree enabled is at least the predicted count with flat tree
disabled, for both packages' `predict_test_count`. -/
theorem predict_test_count_mono (test_flags : List (String × Nat))
    (m : Option (String → Bool)) :
    predict_test_count test_flags false ≤ predict_test_count test_flags true
    ∧ utool_predict_test_count test_flags false m
        ≤ utool_predict_test_count test_flags true m := by
  have hloop : ∀ tf : List (String × Nat),
      count_loop tf false ≤ count_loop tf true := by
    intro tf
    rw [count_loop_eq_sum, count_loop_eq_sum]
    exact List.sum_le_sum (fun nf _ => record_contrib_mono nf)
  by_cases htf : test_flags = []
  · simp [predict_test_count, utool_predict_test_count, htf]
  · refine ⟨?_, ?_⟩
    · simpa [predict_test_count, htf] using hloop test_flags
    · simp only [utool_predict_test_count, if_neg htf]
      cases m with
      | none => exact hloop _
      | some f => exact hloop _

/-! ## Streaming result parser

`TestProgress` (src/utool_pkg/cmdtest.py:291-423).  Process output chunks
arrive as `List Char` (the claims restrict attention to ASCII output, where
`bytes.decode('utf-8')` is the identity on each byte, so chunking commutes
with decoding).  The display-only parts (`_show_progress`,
`SharedProgress.increment`, `clear_progress`, the immediate printing of a
failed test's diagnostics) touch no parsed data and are omitted; `silent`
and `shared` select between those display paths only. -/

/-- The mutable state of `TestProgress.__init__`.  `output_lines` is the raw
chunk log (used only by `show_error_output`); `cur_test` is the
`(name, output_lines)` pair of the open test; `_line_buf` buffers a trailing
partial line. -/
structure TestProgress where
  total : Nat
  run : Nat
  suite : String
  specs : List (String × Option String)
  spec_idx : Nat
  failures : Nat
  output_lines : List (List Char)
  failed_tests : List (String × String)
  test_results : List (String × String × Bool)
  cur_test : Option (String × List (List Char))
  line_buf : List Char
deriving Repr, DecidableEq

/-- `TestProgress.__init__(predicted_total, specs)`. -/
def TestProgress.init (predicted_total : Nat)
    (specs : List (String × Option String)) : TestProgress where
  total := predicted_total
  run := 0
  suite := match specs with
    | [] => ""
    | sp :: _ => sp.1  -- Set initial suite from first spec
  specs := specs
  spec_idx := 0
  failures := 0
  output_lines := []
  failed_tests := []
  test_results := []
  cur_test := none
  line_buf := []

/-- The failure-indicating substrings of `_check_test_failure`. -/
def fail_patterns : List String :=
  ["Expected", "failed", "ASSERT", "Error", "Failure"]

/-- Truthiness of `output and any(any(pat in line for pat in fail_patterns)
for line in output)` in `_check_test_failure`. -/
def is_failure (output : List (List Char)) : Bool :=
  !output.isEmpty
    && output.any (fun line =>
        fail_patterns.any (fun pat => (break_on pat.toList line).isSome))

/-- `TestProgress._check_test_failure` (src/utool_pkg/cmdtest.py:371-388),
without the immediate printing of the failed test's diagnostics. -/
def check_test_failure (s : TestProgress) : TestProgress :=
  match s.cur_test with
  | none => s
  | some nt =>
      let failed := is_failure nt.2
      let s1 := { s with
        test_results := s.test_results ++ [(s.suite, nt.1, !failed)] }
      let s2 :=
        if failed then
          { s1 with failed_tests := s1.failed_tests ++ [(s.suite, nt.1)] }
        else s1
      { s2 with cur_test := none }

/-- `re.match(r'Running (\d+) (\w+) tests', line)`: the anchored match is
deterministic because `\d`/`\w` runs are maximal (backtracking cannot help,
as the characters that follow them in the pattern are not digit/word
characters).  Returns `(int(group(1)), group(2))`. -/
def parse_running (line : List Char) : Option (Nat × String) :=
  match drop_pre "Running ".toList line with
  | none => none
  | some r1 =>
      let ds := r1.takeWhile Char.isDigit
      let r2 := r1.dropWhile Char.isDigit
      if ds = [] then none
      else
        match r2 with
        | ' ' :: r3 =>
            let ws := r3.takeWhile word_char
            let r4 := r3.dropWhile word_char
            if ws = [] then none
            else if isPre " tests".toList r4 then
              some (natOfDigits ds, String.mk ws)
            else none
        | _ => none

/-- `re.match(r'Test: (\w+): (\S+)', line)`; only `group(1)` (the test name)
is used by the caller. -/
def parse_test_line (line : List Char) : Option String :=
  match drop_pre "Test: ".toList line with
  | none => none
  | some r1 =>
      let ws := r1.takeWhile word_char
      let r2 := r1.dropWhile word_char
      if ws = [] then none
      else
        match r2 with
        | ':' :: ' ' :: r3 =>
            match r3 with
            | c :: _ => if py_isspace c then none else some (String.mk ws)
            | [] => none
        | _ => none

/-- Helper for the `.*failures: (\d+)` tail of the final-result pattern:
the greedy `.*` selects the rightmost position at which `failures: ` is
followed by at least one digit; the captured group is the maximal digit run
there. -/
def last_failures (s : List Char) : Option Nat :=
  let here :=
    match drop_pre "failures: ".toList s with
    | none => none
    | some r =>
        let ds := r.takeWhile Char.isDigit
        if ds = [] then none else some (natOfDigits ds)
  match s with
  | [] => here
  | _ :: cs =>
      match last_failures cs with
      | some n => some n
      | none => here

/-- `re.match(r'Tests run: (\d+),.*failures: (\d+)', line)`; only `group(2)`
(the failure count) is used by the caller. -/
def parse_final (line : List Char) : Option Nat :=
  match drop_pre "Tests run: ".toList line with
  | none => none
  | some r1 =>
      let ds := r1.takeWhile Char.isDigit
      let r2 := r1.dropWhile Char.isDigit
      if ds = [] then none
      else
        match r2 with
        | ',' :: r3 => last_failures r3
        | _ => none

/-- The per-line body of the `for line in lines` loop of
`TestProgress.handle_output` (src/utool_pkg/cmdtest.py:331-367). -/
def process_line (s : TestProgress) (line : List Char) : TestProgress :=
  match parse_running line with
  | some nt =>
      -- Only use U-Boot's count if we don't have a prediction
      { s with total := if s.total = 0 then nt.1 else s.total, suite := nt.2 }
  | none =>
  match parse_test_line line with
  | some name =>
      -- Check if previous test failed, then open the new test
      let s1 := check_test_failure s
      { s1 with cur_test := some (name, []), run := s1.run + 1 }
  | none =>
  match parse_final line with
  | some m =>
      let s1 := check_test_failure s
      let s2 := { s1 with failures := m, spec_idx := s1.spec_idx + 1 }
      -- Move to next spec (suite) if available
      match s2.specs.get? s2.spec_idx with
      | some sp => { s2 with suite := sp.1 }
      | none => s2
  | none =>
      -- Collect output for current test (skip boot messages before tests)
      match s.cur_test with
      | some nt =>
          if line.dropWhile py_isspace ≠ [] then
            { s with cur_test := some (nt.1, nt.2 ++ [line]) }
          else s
      | none => s

/-- `text.split('\n')`: always returns at least one element; the last element
is the trailing partial line (empty when `text` ends in a newline). -/
def splitNl : List Char → List (List Char)
  | [] => [[]]
  | c :: cs =>
      if c = '\n' then [] :: splitNl cs
      else
        match splitNl cs with
        | [] => [[c]]
        | l :: ls => (c :: l) :: ls

/-- The line-buffering body of `handle_output`: prepend the held partial
line, split on newlines, process every complete line and hold the trailing
partial line.  (The source stores the new `_line_buf` before the loop; the
loop neither reads nor writes `_line_buf`, so storing it alongside the fold
is equivalent.) -/
def handle_core (s : TestProgress) (chunk : List Char) : TestProgress :=
  let parts := splitNl (s.line_buf ++ chunk)
  parts.dropLast.foldl process_line { s with line_buf := parts.getLastD [] }

/-- `TestProgress.handle_output(_stream, data)` for an ASCII chunk:
append the decoded chunk to `output_lines`, then run the line-buffered
parse.  The `return False` (continue reading) is implicit. -/
def handle_output (s : TestProgress) (chunk : List Char) : TestProgress :=
  handle_core { s with output_lines := s.output_lines ++ [chunk] } chunk

/-- Feeding a stream to `handle_output` one chunk at a time. -/
def handle_all (s : TestProgress) (chunks : List (List Char)) : TestProgress :=
  chunks.foldl handle_output s

/-! ### Chunk-split invariance of the parser (C3) -/

theorem splitNl_ne_nil : ∀ t : List Char, splitNl t ≠ []
  | [] => by simp [splitNl]
  | c :: cs => by
      by_cases hc : c = '\n'
      · simp [splitNl, hc]
      · simp only [splitNl, if_neg hc]
        cases h : splitNl cs <;> simp

theorem splitNl_cons_nl (cs : List Char) :
    splitNl ('\n' :: cs) = [] :: splitNl cs := by
  simp [splitNl]

/-- Prepending a newline-free prefix to a stream extends its first line. -/
def joinHead (p : List Char) : List (List Char) → List (List Char)
  | [] => [p]
  | l :: ls => (p ++ l) :: ls

theorem getLastD_nil {α : Type} (a : α) : ([] : List α).getLastD a = a := rfl

theorem splitNl_cons_of_cons {c : Char} (hc : c ≠ '\n') {t q : List Char}
    {qs : List (List Char)} (ht : splitNl t = q :: qs) :
    splitNl (c :: t) = (c :: q) :: qs := by
  simp only [splitNl, if_neg hc, List.append_eq, ht]

theorem splitNl_no_nl_append : ∀ {p : List Char}, '\n' ∉ p →
    ∀ y : List Char, splitNl (p ++ y) = joinHead p (splitNl y)
  | [], _, y => by
      cases h : splitNl y with
      | nil => exact absurd h (splitNl_ne_nil y)
      | cons l ls => simp [joinHead, h]
  | c :: cs, h, y => by
      have hc : c ≠ '\n' := fun e => h (by simp [e])
      have ih := splitNl_no_nl_append (p := cs)
        (fun hm => h (List.mem_cons_of_mem _ hm)) y
      cases hy : splitNl y with
      | nil => exact absurd hy (splitNl_ne_nil y)
      | cons l ls =>
          rw [hy] at ih
          simp only [joinHead] at ih ⊢
          rw [List.cons_append, splitNl_cons_of_cons hc ih, List.cons_append]

theorem splitNl_no_nl {p : List Char} (h : '\n' ∉ p) : splitNl p = [p] := by
  have := splitNl_no_nl_append h []
  simpa [joinHead, splitNl] using this

theorem splitNl_getLastD_no_nl : ∀ t : List Char, '\n' ∉ (splitNl t).getLastD []
  | [] => by simp [splitNl]
  | c :: cs => by
      have ihall := splitNl_getLastD_no_nl cs
      by_cases hc : c = '\n'
      · subst hc
        rw [splitNl_cons_nl, List.getLastD_cons]
        cases h : splitNl cs with
        | nil => exact absurd h (splitNl_ne_nil cs)
        | cons l ls =>
            rw [h] at ihall
            simp only [List.getLastD_cons] at ihall ⊢
            exact ihall
      · cases h : splitNl cs with
        | nil => exact absurd h (splitNl_ne_nil cs)
        | cons l ls =>
            rw [h] at ihall
            rw [splitNl_cons_of_cons hc h]
            cases ls with
            | nil =>
                simp only [List.getLastD_cons, getLastD_nil] at ihall ⊢
                intro hm
                rcases List.mem_cons.mp hm with he | hm2
                · exact hc he.symm
                · exact ihall hm2
            | cons l2 ls2 =>
                simp only [List.getLastD_cons] at ihall ⊢
                exact ihall

theorem splitNl_append : ∀ x y : List Char,
    splitNl (x ++ y)
      = (splitNl x).dropLast ++ joinHead ((splitNl x).getLastD []) (splitNl y)
  | [], y => by
      cases h : splitNl y with
      | nil => exact absurd h (splitNl_ne_nil y)
      | cons l ls => simp [splitNl, joinHead, h, getLastD_nil]
  | c :: cs, y => by
      have ih := splitNl_append cs y
      by_cases hc : c = '\n'
      · subst hc
        rw [List.cons_append, splitNl_cons_nl, splitNl_cons_nl, ih]
        cases h : splitNl cs with
        | nil => exact absurd h (splitNl_ne_nil cs)
        | cons l ls => simp [List.getLastD_cons]
      · cases h : splitNl cs with
        | nil => exact absurd h (splitNl_ne_nil cs)
        | cons l ls =>
          cases hy : splitNl y with
          | nil => exact absurd hy (splitNl_ne_nil y)
          | cons m ms =>
            rw [h, hy] at ih
            rw [splitNl_cons_of_cons hc h]
            cases ls with
            | nil =>
                simp only [joinHead, List.dropLast_single, List.getLastD_cons,
                  getLastD_nil, List.nil_append] at ih
                rw [List.cons_append, splitNl_cons_of_cons hc ih]
                simp only [List.dropLast_single, List.getLastD_cons,
                  getLastD_nil, joinHead, List.nil_append, List.cons_append]
            | cons l2 ls2 =>
                simp only [joinHead, List.dropLast_cons₂,
                  List.getLastD_cons] at ih
                rw [List.cons_append, splitNl_cons_of_cons hc ih]
                simp only [List.dropLast_cons₂, List.getLastD_cons, joinHead,
                  List.cons_append, List.append_eq]

theorem check_test_failure_update (s : TestProgress) (b : List Char)
    (o : List (List Char)) :
    check_test_failure { s with line_buf := b, output_lines := o }
      = { check_test_failure s with line_buf := b, output_lines := o } := by
  obtain ⟨tot, run, suite, specs, si, fl, ol, ft, tr, ct, lb⟩ := s
  cases ct with
  | none => rfl
  | some nt =>
      simp only [check_test_failure]
      cases hf : is_failure nt.2 <;> simp [hf]

theorem process_line_update (s : TestProgress) (line b : List Char)
    (o : List (List Char)) :
    process_line { s with line_buf := b, output_lines := o } line
      = { process_line s line with line_buf := b, output_lines := o } := by
  unfold process_line
  cases parse_running line with
  | some nt => rfl
  | none =>
    cases parse_test_line line with
    | some name =>
        dsimp only
        rw [check_test_failure_update]
    | none =>
      cases parse_final line with
      | some m =>
          dsimp only
          rw [check_test_failure_update]
          dsimp only
          cases hsp : (check_test_failure s).specs.get?
              ((check_test_failure s).spec_idx + 1) with
          | some sp => rfl
          | none => rfl
      | none =>
          obtain ⟨tot, run, suite, specs, si, fl, ol, ft, tr, ct, lb⟩ := s
          cases ct with
          | none => rfl
          | some nt =>
              by_cases hl : (line.dropWhile py_isspace) ≠ [] <;> simp [hl]

theorem foldl_process_line_update (lines : List (List Char)) :
    ∀ (s : TestProgress) (b : List Char) (o : List (List Char)),
      lines.foldl process_line { s with line_buf := b, output_lines := o }
        = { lines.foldl process_line s with line_buf := b, output_lines := o } := by
  induction lines with
  | nil => intro s b o; rfl
  | cons l ls ih =>
      intro s b o
      simp only [List.foldl_cons, process_line_update]
      exact ih (process_line s l) b o

theorem process_line_line_buf (s : TestProgress) (l : List Char) :
    (process_line s l).line_buf = s.line_buf := by
  have h := process_line_update s l s.line_buf s.output_lines
  have he : { s with line_buf := s.line_buf, output_lines := s.output_lines } = s := rfl
  rw [he] at h
  rw [h]

theorem foldl_process_line_line_buf (lines : List (List Char)) (s : TestProgress) :
    (lines.foldl process_line s).line_buf = s.line_buf := by
  have h := foldl_process_line_update lines s s.line_buf s.output_lines
  have he : { s with line_buf := s.line_buf, output_lines := s.output_lines } = s := rfl
  rw [he] at h
  rw [h]

theorem handle_core_line_buf (s : TestProgress) (c : List Char) :
    (handle_core s c).line_buf = (splitNl (s.line_buf ++ c)).getLastD [] := by
  unfold handle_core
  rw [foldl_process_line_line_buf]

theorem handle_core_update_out (s : TestProgress) (o : List (List Char))
    (c : List Char) :
    handle_core { s with output_lines := o } c
      = { handle_core s c with output_lines := o } := by
  have key := foldl_process_line_update (splitNl (s.line_buf ++ c)).dropLast s
    ((splitNl (s.line_buf ++ c)).getLastD []) o
  have key2 := foldl_process_line_update (splitNl (s.line_buf ++ c)).dropLast s
    ((splitNl (s.line_buf ++ c)).getLastD []) s.output_lines
  unfold handle_core
  dsimp only
  rw [key, key2]

theorem getLastD_append_cons {α : Type} (l1 : List α) (x : α) (l2 : List α) :
    ∀ d : α, (l1 ++ x :: l2).getLastD d = (x :: l2).getLastD d := by
  induction l1 with
  | nil => intro d; rfl
  | cons a as ih =>
      intro d
      rw [List.cons_append, List.getLastD_cons, ih a, List.getLastD_cons,
        List.getLastD_cons]

theorem handle_core_append (s : TestProgress) (a b : List Char) :
    handle_core (handle_core s a) b = handle_core s (a ++ b) := by
  obtain ⟨m, ms, hy⟩ : ∃ m ms, splitNl b = m :: ms := by
    cases h : splitNl b with
    | nil => exact absurd h (splitNl_ne_nil b)
    | cons m ms => exact ⟨m, ms, rfl⟩
  set G := (splitNl (s.line_buf ++ a)).getLastD [] with hG
  have hGnl : '\n' ∉ G := splitNl_getLastD_no_nl _
  have hQ : splitNl (G ++ b) = (G ++ m) :: ms := by
    rw [splitNl_no_nl_append hGnl b, hy]
    rfl
  have hbig : splitNl (s.line_buf ++ (a ++ b))
      = (splitNl (s.line_buf ++ a)).dropLast ++ (G ++ m) :: ms := by
    rw [← List.append_assoc, splitNl_append, hy]
    rfl
  unfold handle_core
  dsimp only
  rw [foldl_process_line_line_buf]
  dsimp only
  rw [hQ, hbig, List.dropLast_append_cons, getLastD_append_cons,
    List.foldl_append]
  congr 1
  rw [foldl_process_line_update (splitNl (s.line_buf ++ a)).dropLast s G
      s.output_lines,
    foldl_process_line_update (splitNl (s.line_buf ++ a)).dropLast s
      (((G ++ m) :: ms).getLastD []) s.output_lines]

theorem handle_core_nil (s : TestProgress) (h : '\n' ∉ s.line_buf) :
    handle_core s [] = s := by
  unfold handle_core
  rw [List.append_nil, splitNl_no_nl h]
  rfl

theorem handle_all_core : ∀ (chunks : List (List Char)) (s : TestProgress),
    '\n' ∉ s.line_buf →
    handle_all s chunks
      = { handle_core s chunks.flatten with
          output_lines := s.output_lines ++ chunks }
  | [], s, h => by
      show s = _
      rw [show (List.flatten ([] : List (List Char))) = [] from rfl,
        handle_core_nil s h, List.append_nil]
  | c :: cs, s, h => by
      have hout : handle_output s c
          = { handle_core s c with output_lines := s.output_lines ++ [c] } := by
        unfold handle_output
        exact handle_core_update_out s (s.output_lines ++ [c]) c
      have hbuf2 : '\n' ∉ (handle_output s c).line_buf := by
        rw [hout]
        show '\n' ∉ (handle_core s c).line_buf
        rw [handle_core_line_buf]
        exact splitNl_getLastD_no_nl _
      have ih := handle_all_core cs (handle_output s c) hbuf2
      show handle_all (handle_output s c) cs = _
      rw [ih, hout]
      dsimp only
      rw [handle_core_update_out, handle_core_append, List.flatten_cons,
        show (s.output_lines ++ [c]) ++ cs = s.output_lines ++ c :: cs by simp]

/-- C3: feeding an ASCII stream to `TestProgress.handle_output` chunk by
chunk produces the same final `run` count, `failures` count, `test_results`
and `failed_tests` as feeding it as one single chunk: partial lines are
buffered across chunk boundaries, so chunk boundaries never change the
parsing results. -/
theorem handle_output_chunk_invariant (total : Nat)
    (specs : List (String × Option String)) (chunks : List (List Char)) :
    (handle_all (TestProgress.init total specs) chunks).run
        = (handle_output (TestProgress.init total specs) chunks.flatten).run
    ∧ (handle_all (TestProgress.init total specs) chunks).failures
        = (handle_output (TestProgress.init total specs) chunks.flatten).failures
    ∧ (handle_all (TestProgress.init total specs) chunks).test_results
        = (handle_output (TestProgress.init total specs) chunks.flatten).test_results
    ∧ (handle_all (TestProgress.init total specs) chunks).failed_tests
        = (handle_output (TestProgress.init total specs) chunks.flatten).failed_tests := by
  have h1 := handle_all_core chunks (TestProgress.init total specs)
    (List.not_mem_nil _)
  have h2 : handle_output (TestProgress.init total specs) chunks.flatten
      = { handle_core (TestProgress.init total specs) chunks.flatten with
          output_lines :=
            (TestProgress.init total specs).output_lines ++ [chunks.flatten] } := by
    unfold handle_output
    exact handle_core_update_out _ _ _
  rw [h1, h2]
  exact ⟨rfl, rfl, rfl, rfl⟩

/-- C2: when `_check_test_failure` finalizes an open test, the test is
recorded as failed exactly when some line of its accumulated diagnostic
buffer contains one of the substrings "Expected", "failed", "ASSERT",
"Error", "Failure"; an empty buffer, or one containing none of these, is
recorded as passed. -/
theorem check_test_failure_iff (s : TestProgress) (name : String)
    (output : List (List Char)) (h : s.cur_test = some (name, output)) :
    ((is_failure output = true)
      ↔ ∃ line ∈ output, ∃ pat ∈ fail_patterns,
          (break_on pat.toList line).isSome = true)
    ∧ (check_test_failure s).test_results
        = s.test_results ++ [(s.suite, name, !is_failure output)]
    ∧ (check_test_failure s).failed_tests
        = s.failed_tests
            ++ (if is_failure output then [(s.suite, name)] else []) := by
  refine ⟨?_, ?_, ?_⟩
  · constructor
    · intro hf
      unfold is_failure at hf
      rw [Bool.and_eq_true] at hf
      rcases hf with ⟨_, hany⟩
      rcases List.any_eq_true.mp hany with ⟨line, hmem, hline⟩
      rcases List.any_eq_true.mp hline with ⟨pat, hpmem, hp⟩
      exact ⟨line, hmem, pat, hpmem, hp⟩
    · rintro ⟨line, hmem, pat, hpmem, hp⟩
      unfold is_failure
      rw [Bool.and_eq_true]
      refine ⟨?_, ?_⟩
      · cases output with
        | nil => exact absurd hmem (List.not_mem_nil _)
        | cons a as => rfl
      · exact List.any_eq_true.mpr
          ⟨line, hmem, List.any_eq_true.mpr ⟨pat, hpmem, hp⟩⟩
  · unfold check_test_failure
    rw [h]
    cases hf : is_failure output <;> simp [hf]
  · unfold check_test_failure
    rw [h]
    cases hf : is_failure output <;> simp [hf]

/-- Witness for `check_test_failure_iff` at a concrete state: an open test
whose buffer contains an "Expected ..." line is recorded as failed. -/
theorem check_test_failure_iff_witness :
    ((is_failure ["Expected 3, got 4".toList] = true)
      ↔ ∃ line ∈ ["Expected 3, got 4".toList], ∃ pat ∈ fail_patterns,
          (break_on pat.toList line).isSome = true)
    ∧ (check_test_failure { TestProgress.init 2 [("dm", none)] with
          cur_test := some ("t_two", ["Expected 3, got 4".toList]) }).test_results
        = [] ++ [("dm", "t_two", !is_failure ["Expected 3, got 4".toList])]
    ∧ (check_test_failure { TestProgress.init 2 [("dm", none)] with
          cur_test := some ("t_two", ["Expected 3, got 4".toList]) }).failed_tests
        = [] ++ (if is_failure ["Expected 3, got 4".toList]
                 then [("dm", "t_two")] else []) :=
  check_test_failure_iff
    { TestProgress.init 2 [("dm", none)] with
      cur_test := some ("t_two", ["Expected 3, got 4".toList]) }
    "t_two" ["Expected 3, got 4".toList] rfl

/-! ## Test spec resolver

`parse_one_test` (src/utool_pkg/cmdtest.py:504-531 and
src/uman_pkg/cmdtest.py:243-283), `resolve_specs`
(src/utool_pkg/cmdtest.py:568-593 and src/uman_pkg/cmdtest.py:320-350) and
`validate_specs` (src/uman_pkg/cmdtest.py:353-383).

A spec is a pair `(suite, pattern)`; `suite = none` means "search all
suites", `pattern = none` means "run whole suite".  A raised exception
(`IndexError` on `parts[0]` for a whitespace-only argument, `TypeError` on
`test_name.endswith(None)`) is modelled as `none` at the function level. -/

/-- The shared tail of both packages' `parse_one_test`: the
`'_test_' in suite` / `suite.startswith('test_')` / `'_' in suite` chain.
`suite` is the first whitespace field, `pat` the remainder (if any). -/
def parse_chain (suite : List Char) (pat : Option (List Char)) :
    Option String × Option String :=
  -- Check for full test name: suite_test_name
  match break_on "_test_".toList suite with
  | some ab => (some (String.mk ab.1), some (String.mk ab.2))
  | none =>
      -- Check for test name only: test_something -> search all suites
      if isPre "test_".toList suite then
        (none, some (String.mk (suite.drop 5)))  -- Strip 'test_' prefix
      -- Check for partial test name containing underscore (e.g. ext4l_unlink)
      else if suite.contains '_' && pat.isNone then
        (none, some (String.mk suite))
      else
        (some (String.mk suite), pat.map String.mk)

/-- `parse_one_test(arg)` from src/utool_pkg/cmdtest.py;
`none` models the `IndexError` a whitespace-only argument raises. -/
def utool_parse_one_test (arg : String) :
    Option (Option String × Option String) :=
  match split_ws1 arg.toList with
  | [] => none
  | first :: rest => some (parse_chain first rest.head?)

/-- `parse_one_test(arg)` from src/uman_pkg/cmdtest.py: same chain, but
first strips a pytest-style `ut_` prefix (splitting `suite_testname` on the
first underscore when there is no explicit rest) and then splits a
`suite.test` form on the first dot. -/
def uman_parse_one_test (arg : String) :
    Option (Option String × Option String) :=
  match split_ws1 arg.toList with
  | [] => none
  | first :: rest =>
      let pat0 := rest.head?
      -- Strip ut_ prefix from pytest-style names (e.g. ut_bootstd_bootflow)
      if isPre "ut_".toList first then
        let s1 := first.drop 3
        if s1.contains '_' && pat0.isNone then
          -- Split on first underscore: suite_testname -> (suite, testname)
          match break_on ['_'] s1 with
          | some ab => some (some (String.mk ab.1), some (String.mk ab.2))
          | none => some (some (String.mk s1), none)  -- unreachable
        else some (uman_chain s1 pat0)
      else some (uman_chain first pat0)
where
  /-- The `'.' in suite` rule followed by the shared chain. -/
  uman_chain (suite : List Char) (pat : Option (List Char)) :
      Option String × Option String :=
    -- Check for suite.test format
    if suite.contains '.' && pat.isNone then
      match break_on ['.'] suite with
      | some ab => (some (String.mk ab.1), some (String.mk ab.2))
      | none => (some (String.mk suite), pat.map String.mk)  -- unreachable
    else parse_chain suite pat

/-- The four resolution rules exactly as the claim words them, applied in
order to the first whitespace field `tok` (with `rest` the remainder):
(1) a token containing `_test_` splits there; (2) a `test_` prefix is
stripped and the remainder searches all suites; (3) a token containing an
underscore with no whitespace rest is a cross-suite pattern;
(4) otherwise return `(token, None)` as a bare suite. -/
def claim_selector_rules (arg : String) :
    Option (Option String × Option String) :=
  match split_ws1 arg.toList with
  | [] => none
  | tok :: rest =>
      some (match break_on "_test_".toList tok with
        | some ab => (some (String.mk ab.1), some (String.mk ab.2))
        | none =>
            if isPre "test_".toList tok then
              (none, some (String.mk (tok.drop 5)))
            else if tok.contains '_' && rest.head?.isNone then
              (none, some (String.mk tok))
            else (some (String.mk tok), none))

/-- The amended rules: identical to `claim_selector_rules` except that
rule (4) keeps the whitespace-separated rest as the pattern instead of
returning `None`. -/
def amended_selector_rules (arg : String) :
    Option (Option String × Option String) :=
  match split_ws1 arg.toList with
  | [] => none
  | tok :: rest =>
      some (match break_on "_test_".toList tok with
        | some ab => (some (String.mk ab.1), some (String.mk ab.2))
        | none =>
            if isPre "test_".toList tok then
              (none, some (String.mk (tok.drop 5)))
            else if tok.contains '_' && rest.head?.isNone then
              (none, some (String.mk tok))
            else (some (String.mk tok), rest.head?.map String.mk))

/-- C6 counterexample: the claim's rules, as stated, disagree with both
`parse_one_test` implementations.  Rule (4) as claimed returns
`(token, None)`, but on `"dm video*"` the code keeps the whitespace rest as
the pattern; and uman's version applies a `suite.test` dot rule before the
claimed rules, so `"dm.test_acpi"` resolves to `("dm", "test_acpi")` instead
of the rules' `(None, "dm.test_acpi")`. -/
theorem parse_one_test_counterexample :
    utool_parse_one_test "dm video*" = some (some "dm", some "video*")
    ∧ claim_selector_rules "dm video*" = some (some "dm", none)
    ∧ utool_parse_one_test "dm video*" ≠ claim_selector_rules "dm video*"
    ∧ uman_parse_one_test "dm.test_acpi" = some (some "dm", some "test_acpi")
    ∧ claim_selector_rules "dm.test_acpi" = some (none, some "dm.test_acpi")
    ∧ uman_parse_one_test "dm.test_acpi" ≠ claim_selector_rules "dm.test_acpi" := by
  refine ⟨by decide, by decide, by decide, by decide, by decide, by decide⟩

/-- C6 amended: after splitting on the first whitespace run, utool's
`parse_one_test` applies exactly rules (1)-(4) with rule (4) returning
`(token, rest)` (the whitespace remainder, or `None` when absent); uman's
`parse_one_test` agrees with these rules whenever the first field neither
starts with `ut_` nor contains a dot; and `"bloblist_test_blob"` parses to
`(suite="bloblist", pattern="blob")` in both. -/
theorem parse_one_test_rules (arg : String) :
    utool_parse_one_test arg = amended_selector_rules arg
    ∧ (∀ first rest, split_ws1 arg.toList = first :: rest →
        isPre "ut_".toList first = false → first.contains '.' = false →
        uman_parse_one_test arg = amended_selector_rules arg)
    ∧ utool_parse_one_test "bloblist_test_blob"
        = some (some "bloblist", some "blob")
    ∧ uman_parse_one_test "bloblist_test_blob"
        = some (some "bloblist", some "blob") := by
  refine ⟨?_, ?_, by decide, by decide⟩
  · unfold utool_parse_one_test amended_selector_rules
    cases h : split_ws1 arg.toList with
    | nil => rfl
    | cons first rest => rfl
  · intro first rest h hut hdot
    unfold uman_parse_one_test amended_selector_rules
    rw [h]
    dsimp only
    rw [if_neg (fun hc => Bool.false_ne_true (hut.symm.trans hc))]
    show some (uman_parse_one_test.uman_chain first rest.head?) = _
    unfold uman_parse_one_test.uman_chain
    rw [if_neg (fun hc => Bool.false_ne_true
      (hdot.symm.trans (Bool.and_eq_true _ _ ▸ hc).1))]
    rfl

/-- Witness for `parse_one_test_rules`: on `"lib_test_foo"` (no `ut_`
prefix, no dot) uman's parser agrees with the amended rules. -/
theorem parse_one_test_rules_witness :
    uman_parse_one_test "lib_test_foo" = amended_selector_rules "lib_test_foo" :=
  (parse_one_test_rules "lib_test_foo").2.1 "lib_test_foo".toList []
    (by decide) (by decide) (by decide)

/-- The inner `for test_suite, test_name in all_tests: ... break` lookup of
`resolve_specs`: the suite of the first inventory test whose name ends with
the pattern. -/
def find_suite (all_tests : List (String × String)) (p : String) :
    Option String :=
  match all_tests with
  | [] => none
  | t :: ts => if ends_with t.2 p then some t.1 else find_suite ts p

theorem find_suite_eq_find? (all_tests : List (String × String)) (p : String) :
    find_suite all_tests p
      = (all_tests.find? (fun t => ends_with t.2 p)).map Prod.fst := by
  induction all_tests with
  | nil => rfl
  | cons t ts ih =>
      rw [find_suite, List.find?_cons]
      cases h : ends_with t.2 p <;> simp [h, ih]

/-- `resolve_specs(sandbox, specs)` from src/uman_pkg/cmdtest.py:
returns `(resolved, unmatched)`.  A spec `(None, None)` would make Python
call `endswith(None)` and raise `TypeError`; that is the `none` result. -/
def uman_resolve_specs (all_tests : List (String × String)) :
    List (Option String × Option String)
      → Option (List (Option String × Option String)
                × List (Option String × Option String))
  | [] => some ([], [])
  | (some s, p) :: rest =>
      (uman_resolve_specs all_tests rest).map
        (fun ru => ((some s, p) :: ru.1, ru.2))
  | (none, some p) :: rest =>
      match find_suite all_tests p with
      | some ts =>
          (uman_resolve_specs all_tests rest).map
            (fun ru => ((some ts, some p) :: ru.1, ru.2))
      | none =>
          (uman_resolve_specs all_tests rest).map
            (fun ru => (ru.1, (none, some p) :: ru.2))
  | (none, none) :: _ => none

/-- `resolve_specs(sandbox, specs)` from src/utool_pkg/cmdtest.py: same
lookup, but there is no `unmatched` list — a pattern with no match is
simply not appended to the resolved list. -/
def utool_resolve_specs (all_tests : List (String × String)) :
    List (Option String × Option String)
      → Option (List (Option String × Option String))
  | [] => some []
  | (some s, p) :: rest =>
      (utool_resolve_specs all_tests rest).map (fun r => (some s, p) :: r)
  | (none, some p) :: rest =>
      match find_suite all_tests p with
      | some ts =>
          (utool_resolve_specs all_tests rest).map
            (fun r => (some ts, some p) :: r)
      | none => utool_resolve_specs all_tests rest
  | (none, none) :: _ => none

/-- C7 counterexample: in utool's `resolve_specs` a pattern with no match in
the whole inventory is NOT reported: resolving it produces exactly the same
output as resolving an empty spec list (the spec is silently dropped, and
the function has no unmatched channel at all), contradicting the claim that
the caller aborts rather than running with the spec dropped.  (uman's
version does report it.) -/
theorem resolve_specs_counterexample :
    utool_resolve_specs [("dm", "test_acpi")] [(none, some "zzz")] = some []
    ∧ utool_resolve_specs [("dm", "test_acpi")] []
        = utool_resolve_specs [("dm", "test_acpi")] [(none, some "zzz")]
    ∧ uman_resolve_specs [("dm", "test_acpi")] [(none, some "zzz")]
        = some ([], [(none, some "zzz")]) := by
  refine ⟨by decide, by decide, by decide⟩

/-- C7 amended: for a spec with `suite=None`, uman's `resolve_specs`
searches the whole inventory, the first test (in inventory order) whose name
ends with the pattern supplies the suite, and a pattern with no match is
returned in the `unmatched` list (on which the caller aborts before
execution); utool's `resolve_specs` takes the same first match but silently
drops an unmatched pattern from its only output, the resolved list. -/
theorem resolve_specs_unmatched (inv : List (String × String)) (p : String) :
    (∀ t, inv.find? (fun t => ends_with t.2 p) = some t →
        uman_resolve_specs inv [(none, some p)] = some ([(some t.1, some p)], [])
        ∧ utool_resolve_specs inv [(none, some p)] = some [(some t.1, some p)])
    ∧ (inv.find? (fun t => ends_with t.2 p) = none →
        uman_resolve_specs inv [(none, some p)] = some ([], [(none, some p)])
        ∧ utool_resolve_specs inv [(none, some p)] = some []) := by
  have hfs := find_suite_eq_find? inv p
  constructor
  · intro t ht
    rw [ht] at hfs
    exact ⟨by simp [uman_resolve_specs, hfs],
           by simp [utool_resolve_specs, hfs]⟩
  · intro ht
    rw [ht] at hfs
    exact ⟨by simp [uman_resolve_specs, hfs],
           by simp [utool_resolve_specs, hfs]⟩

/-- Witness for `resolve_specs_unmatched`: pattern `"acpi"` resolves to
suite `"dm"` in a two-test inventory (first match wins). -/
theorem resolve_specs_unmatched_witness :
    uman_resolve_specs [("dm", "test_acpi"), ("lib", "other_acpi")]
        [(none, some "acpi")]
      = some ([(some "dm", some "acpi")], [])
    ∧ utool_resolve_specs [("dm", "test_acpi"), ("lib", "other_acpi")]
        [(none, some "acpi")]
      = some [(some "dm", some "acpi")] :=
  (resolve_specs_unmatched [("dm", "test_acpi"), ("lib", "other_acpi")]
      "acpi").1 ("dm", "test_acpi") (by decide)

/-- Whether an inventory test satisfies a spec in `validate_specs`'s inner
loop: same suite, and (pattern absent, or the test name ends with the
pattern). -/
def spec_matches_one (sp : Option String × Option String)
    (t : String × String) : Bool :=
  some t.1 == sp.1
    && (match sp.2 with
        | none => true
        | some p => ends_with t.2 p)

/-- `validate_specs(sandbox, specs)` from src/uman_pkg/cmdtest.py:353-383:
every spec except the literal `('all', None)` singleton must be satisfied by
at least one inventory test; the unsatisfied ones are returned (in order).
The `found`-flag loop collecting `unmatched` is translated as a filter. -/
def validate_specs (all_tests : List (String × String))
    (specs : List (Option String × Option String)) :
    List (Option String × Option String) :=
  if specs == [(some "all", none)] then []
  else specs.filter (fun sp => !(all_tests.any (spec_matches_one sp)))

/-- Modelled from the spec: a "shell-glob" match of a pattern against a
name, with fuel for the two-dimensional recursion (the fuel used is always
sufficient: every step consumes pattern and/or name).  `*` matches any
sequence, `?` any single character, `[...]`/`[!...]` a (possibly negated)
character set (ranges are not modelled — no claim exercises them), and an
unterminated `[` matches itself literally, as in `fnmatch`. -/
def glob_go : Nat → List Char → List Char → Bool
  | 0, _, _ => false
  | _ + 1, [], s => s.isEmpty
  | fuel + 1, '*' :: ps, s =>
      glob_go fuel ps s
        || (match s with
            | [] => false
            | _ :: cs => glob_go fuel ('*' :: ps) cs)
  | fuel + 1, '?' :: ps, s =>
      match s with
      | [] => false
      | _ :: cs => glob_go fuel ps cs
  | fuel + 1, '[' :: '!' :: ps, s =>
      match s with
      | [] => false
      | c :: cs =>
          match class_split ps with
          | some cr => !(cr.1.contains c) && glob_go fuel cr.2 cs
          | none => c == '[' && glob_go fuel ('!' :: ps) cs
  | fuel + 1, '[' :: ps, s =>
      match s with
      | [] => false
      | c :: cs =>
          match class_split ps with
          | some cr => cr.1.contains c && glob_go fuel cr.2 cs
          | none => c == '[' && glob_go fuel ps cs
  | fuel + 1, p :: ps, s =>
      match s with
      | [] => false
      | c :: cs => p == c && glob_go fuel ps cs
where
  /-- Collect the characters of a `[...]` class up to the closing `]`;
  `none` when the class is unterminated. -/
  class_split : List Char → Option (List Char × List Char)
    | [] => none
    | ']' :: rest => some ([], rest)
    | c :: rest => (class_split rest).map (fun cr => (c :: cr.1, cr.2))

/-- Shell-glob matching as the spec describes it. -/
def shell_glob (p s : List Char) : Bool :=
  glob_go (p.length + s.length + 1) p s

/-- C8 counterexample: the pattern `"video*"` carries a glob metacharacter
and glob-matches the inventory test name `"video_base"` in suite `"dm"`,
yet `validate_specs` reports the spec `("dm", "video*")` as unmatched: its
matcher only ever tests `endswith`, never a shell glob.  The claim's
glob clause therefore fails on the code. -/
theorem validate_specs_glob_counterexample :
    "video*".toList.any (fun c => c == '*' || c == '?' || c == '[') = true
    ∧ shell_glob "video*".toList "video_base".toList = true
    ∧ validate_specs [("dm", "video_base")] [(some "dm", some "video*")]
        = [(some "dm", some "video*")] := by
  refine ⟨by decide, by decide, by decide⟩

/-- C8 amended: apart from the literal all-spec (validated as empty),
`validate_specs` reports a spec as unmatched exactly when no inventory test
matches it, where a `pattern=None` spec matches when its suite exists in the
inventory, and every non-None pattern — whether or not it contains glob
metacharacters — matches only when some test of that suite ends with the
literal pattern text (globs are not expanded during validation). -/
theorem validate_specs_char (inv : List (String × String))
    (specs : List (Option String × Option String)) :
    (specs = [(some "all", none)] → validate_specs inv specs = [])
    ∧ (specs ≠ [(some "all", none)] →
        ∀ sp, sp ∈ validate_specs inv specs
          ↔ sp ∈ specs
            ∧ ¬ ∃ t ∈ inv, some t.1 = sp.1
                ∧ (sp.2 = none
                   ∨ ∃ p, sp.2 = some p ∧ ends_with t.2 p = true)) := by
  constructor
  · intro h
    simp [validate_specs, h]
  · intro h sp
    rw [validate_specs, if_neg (by simpa using h), List.mem_filter]
    have hmatch : (inv.any (spec_matches_one sp) = true)
        ↔ ∃ t ∈ inv, some t.1 = sp.1
            ∧ (sp.2 = none ∨ ∃ p, sp.2 = some p ∧ ends_with t.2 p = true) := by
      rw [List.any_eq_true]
      constructor
      · rintro ⟨t, htmem, hts⟩
        unfold spec_matches_one at hts
        rw [Bool.and_eq_true] at hts
        refine ⟨t, htmem, by simpa using hts.1, ?_⟩
        rcases hp : sp.2 with _ | p
        · exact Or.inl rfl
        · refine Or.inr ⟨p, rfl, ?_⟩
          have := hts.2
          rw [hp] at this
          exact this
      · rintro ⟨t, htmem, hsuite, hpat⟩
        refine ⟨t, htmem, ?_⟩
        unfold spec_matches_one
        rw [Bool.and_eq_true]
        refine ⟨by simpa using hsuite, ?_⟩
        rcases hpat with hnone | ⟨p, hp, hend⟩
        · rw [hnone]
        · rw [hp]
          exact hend
    constructor
    · rintro ⟨hmem, hflt⟩
      refine ⟨hmem, fun hex => ?_⟩
      rw [Bool.not_eq_true'] at hflt
      exact absurd (hmatch.mpr hex) (by simp [hflt])
    · rintro ⟨hmem, hnex⟩
      refine ⟨hmem, ?_⟩
      cases hany : inv.any (spec_matches_one sp) with
      | false => rfl
      | true => exact absurd (hmatch.mp hany) hnex

/-- Witness for `validate_specs_char`: with inventory
`[("dm", "test_acpi")]`, the spec `("dm", "acpi")` is not reported (a test
of suite `dm` ends with `"acpi"`). -/
theorem validate_specs_char_witness :
    (some "dm", some "acpi")
        ∈ validate_specs [("dm", "test_acpi")] [(some "dm", some "acpi")]
      ↔ (some "dm", some "acpi") ∈ [((some "dm" : Option String),
            (some "acpi" : Option String))]
        ∧ ¬ ∃ t ∈ [("dm", "test_acpi")],
            some t.1 = (some "dm" : Option String)
            ∧ ((some "acpi" : Option String) = none
               ∨ ∃ p, (some "acpi" : Option String) = some p
                   ∧ ends_with t.2 p = true) :=
  (validate_specs_char [("dm", "test_acpi")]
      [(some "dm", some "acpi")]).2 (by decide) (some "dm", some "acpi")

/-! ## Parallel execution aggregation

`run_tests_parallel` (src/utool_pkg/cmdtest.py:735-808).  Each worker thread
runs `run_worker`, which fills a `WorkerResult` from its own `TestProgress`;
the orchestrator joins all threads and then aggregates sequentially.  The
claim is about that post-join aggregation, embedded here as a pure function
of the list of per-worker results (thread scheduling cannot affect it: each
worker owns its result slot, and aggregation starts only after every
`thread.join()` returns). -/

/-- `WorkerResult` (src/utool_pkg/cmdtest.py:674-682). -/
structure WorkerResult where
  returncode : Int
  run : Nat
  failed_tests : List (String × String)
  test_results : List (String × String × Bool)
  output_lines : List (List Char)
deriving Repr, DecidableEq

/-- The aggregate the orchestrator computes after joining the workers. -/
structure AggResult where
  total_run : Nat
  all_failed : List (String × String)
  all_results : List (String × String × Bool)
  exit_code : Nat
deriving Repr, DecidableEq

/-- The aggregation part of `run_tests_parallel`
(src/utool_pkg/cmdtest.py:772-808): sum the `run` counts, extend-concatenate
the failure and result lists, and exit non-zero when there were failures,
or when nothing ran and some worker errored, or when any worker errored. -/
def run_tests_parallel_agg (results : List WorkerResult) : AggResult :=
  let total_run := (results.map (fun r => r.run)).sum
  let all_failed : List (String × String) :=
    results.foldl (fun acc r => acc ++ r.failed_tests) []
  let all_results : List (String × String × Bool) :=
    results.foldl (fun acc r => acc ++ r.test_results) []
  let any_error := results.any (fun r => r.returncode != 0)
  let code : Nat :=
    if all_failed ≠ [] then 1
    else if total_run = 0 && any_error then 1
    else if any_error then 1 else 0
  ⟨total_run, all_failed, all_results, code⟩

theorem foldl_extend {α β : Type} (f : β → List α) (results : List β) :
    ∀ acc : List α,
      results.foldl (fun acc r => acc ++ f r) acc
        = acc ++ (results.map f).flatten := by
  induction results with
  | nil => intro acc; simp
  | cons r rs ih =>
      intro acc
      rw [List.foldl_cons, ih, List.map_cons, List.flatten_cons,
        List.append_assoc]

/-- C9: after all workers are joined, the aggregate `run` is the sum of the
per-worker `run` counts, the aggregate failure list is the concatenation of
the per-worker failure lists, and the exit code is non-zero whenever at
least one worker process returned a non-zero exit code. -/
theorem run_tests_parallel_agg_correct (results : List WorkerResult) :
    (run_tests_parallel_agg results).total_run
        = (results.map (fun r => r.run)).sum
    ∧ (run_tests_parallel_agg results).all_failed
        = (results.map (fun r => r.failed_tests)).flatten
    ∧ ((∃ r ∈ results, r.returncode ≠ 0) →
        (run_tests_parallel_agg results).exit_code ≠ 0) := by
  refine ⟨rfl, ?_, ?_⟩
  · show results.foldl (fun acc r => acc ++ r.failed_tests) [] = _
    rw [foldl_extend (fun r => r.failed_tests) results []]
    rfl
  · intro hex
    have hany : results.any (fun r => r.returncode != 0) = true := by
      rcases hex with ⟨r, hmem, hne⟩
      exact List.any_eq_true.mpr ⟨r, hmem, by simpa using hne⟩
    show (if _ then 1 else if _ then 1 else if _ then 1 else 0) ≠ 0
    split
    · exact one_ne_zero
    · split
      · exact one_ne_zero
      · simp [hany]

/-- Witness for `run_tests_parallel_agg_correct`: two workers, one of which
exits non-zero. -/
theorem run_tests_parallel_agg_witness :
    (run_tests_parallel_agg
        [⟨0, 3, [], [], []⟩, ⟨2, 1, [("dm", "t_x")], [], []⟩]).total_run
      = ([⟨0, 3, [], [], []⟩,
          (⟨2, 1, [("dm", "t_x")], [], []⟩ : WorkerResult)].map
            (fun r => r.run)).sum
    ∧ (run_tests_parallel_agg
        [⟨0, 3, [], [], []⟩, ⟨2, 1, [("dm", "t_x")], [], []⟩]).all_failed
      = ([⟨0, 3, [], [], []⟩,
          (⟨2, 1, [("dm", "t_x")], [], []⟩ : WorkerResult)].map
            (fun r => r.failed_tests)).flatten
    ∧ (run_tests_parallel_agg
        [⟨0, 3, [], [], []⟩, ⟨2, 1, [("dm", "t_x")], [], []⟩]).exit_code ≠ 0 :=
  ⟨(run_tests_parallel_agg_correct _).1,
   (run_tests_parallel_agg_correct _).2.1,
   (run_tests_parallel_agg_correct
      [⟨0, 3, [], [], []⟩, ⟨2, 1, [("dm", "t_x")], [], []⟩]).2.2
     ⟨⟨2, 1, [("dm", "t_x")], [], []⟩, by decide, by decide⟩⟩

/-! ## Test-pollution binary search

`do_pollute` and `pollute_run` (src/uman_pkg/cmdpy.py:888-936, 939-1059).
`pollute_run` launches a pytest process and reports whether the target test
failed after running a given prefix of tests; that boolean outcome is
abstracted as an oracle `probe : List String → Bool` (the target is fixed
for a whole `do_pollute` run), and each oracle call corresponds to exactly
one `pollute_run` invocation.  The loop is given explicit fuel
(`candidates.length`, always sufficient because the candidate list strictly
shrinks) so that runs evaluate by kernel reduction. -/

/-- The `for i, test in enumerate(tests): if target in test` search of
`do_pollute`: index and full name of the first test containing the target
string. -/
def find_target : List String → String → Option (Nat × String)
  | [], _ => none
  | t :: ts, tgt =>
      if str_in tgt t then some (0, t)
      else (find_target ts tgt).map (fun ix => (ix.1 + 1, ix.2))

/-- `len(candidates)` at the start of the search
(`candidates = tests[:target_idx]`); 0 when the target is missing or first. -/
def cand_count (tests : List String) (target : String) : Nat :=
  match find_target tests target with
  | some ix => ix.1
  | none => 0

/-- One iteration of the binary-search loop: probe the first half; keep it
if the target still fails, otherwise keep the second half. -/
def pollute_step (probe : List String → Bool) (candidates : List String) :
    List String :=
  let mid := candidates.length / 2
  if probe (candidates.take mid) then candidates.take mid
  else candidates.drop mid

/-- `while len(candidates) > 1` with explicit fuel; returns the final
candidate list and the number of probes made. -/
def pollute_loop_go (probe : List String → Bool) :
    Nat → List String → List String × Nat
  | 0, candidates => (candidates, 0)
  | fuel + 1, candidates =>
      if 1 < candidates.length then
        let r := pollute_loop_go probe fuel (pollute_step probe candidates)
        (r.1, r.2 + 1)
      else (candidates, 0)

/-- The binary-search loop of `do_pollute` (src/uman_pkg/cmdpy.py:1025-1036). -/
def pollute_loop (probe : List String → Bool) (candidates : List String) :
    List String × Nat :=
  pollute_loop_go probe candidates.length candidates

/-- How a `do_pollute` run ended. -/
inductive PolluteOutcome where
  | notFound
  | firstIsTarget
  | failsAlone
  | noRepro
  | noPolluter
  | inconclusive
  | found (polluter : String)
deriving Repr, DecidableEq

/-- Result of a `do_pollute` run: how it ended, how many `pollute_run`
probes it made, and its exit code. -/
structure PolluteRun where
  outcome : PolluteOutcome
  probes : Nat
  exit_code : Nat
deriving Repr, DecidableEq

/-- `do_pollute(args)` (src/uman_pkg/cmdpy.py:939-1059) with I/O abstracted:
`tests` is the collected test list, `target0` the requested substring, and
`probe prefixTests` the outcome of `pollute_run(prefixTests, target, ...)`
(`true` when the target failed).  The initial build and all printing are
omitted; each exit path is tagged with its `PolluteOutcome`. -/
def do_pollute (probe : List String → Bool) (tests : List String)
    (target0 : String) : PolluteRun :=
  match find_target tests target0 with
  | none => ⟨.notFound, 0, 1⟩
  | some ix =>
      if ix.1 = 0 then ⟨.firstIsTarget, 0, 1⟩
      else
        let candidates := tests.take ix.1
        -- Verify target passes alone
        if probe [] then ⟨.failsAlone, 1, 1⟩
        -- Verify target fails with all candidates
        else if !probe candidates then ⟨.noRepro, 2, 1⟩
        else
          let r := pollute_loop probe candidates
          match r.1 with
          | [] => ⟨.noPolluter, 2 + r.2, 1⟩
          | polluter :: _ =>
              -- Final verification
              if probe [polluter] then ⟨.found polluter, 3 + r.2, 0⟩
              else ⟨.inconclusive, 3 + r.2, 1⟩

theorem pollute_step_lt (probe : List String → Bool) (c : List String)
    (h : 1 < c.length) : (pollute_step probe c).length < c.length := by
  by_cases hb : probe (c.take (c.length / 2)) = true <;>
    simp [pollute_step, hb] <;> omega

theorem pollute_step_le_half (probe : List String → Bool) (c : List String)
    (_h : 1 < c.length) :
    (pollute_step probe c).length ≤ (c.length + 1) / 2 := by
  by_cases hb : probe (c.take (c.length / 2)) = true <;>
    simp [pollute_step, hb] <;> omega

theorem pollute_step_ne_nil (probe : List String → Bool) (c : List String)
    (h : 1 < c.length) : (pollute_step probe c).length ≠ 0 := by
  by_cases hb : probe (c.take (c.length / 2)) = true <;>
    simp only [pollute_step, hb, if_true, if_false, Bool.false_eq_true,
      List.length_take, List.length_drop] <;> omega

theorem pollute_loop_go_one (probe : List String → Bool) :
    ∀ (fuel : Nat) (c : List String), c ≠ [] → c.length ≤ fuel →
      ((pollute_loop_go probe fuel c).1).length = 1
  | 0, c, hne, hle => by
      have : c.length = 0 := Nat.le_zero.mp hle
      exact absurd (List.eq_nil_of_length_eq_zero this) hne
  | fuel + 1, c, hne, hle => by
      rw [pollute_loop_go]
      split
      · rename_i hlen
        have hlt := pollute_step_lt probe c hlen
        have hnn := pollute_step_ne_nil probe c hlen
        exact pollute_loop_go_one probe fuel (pollute_step probe c)
          (fun he => hnn (by rw [he]; rfl)) (by omega)
      · rename_i hlen
        have h1 : c.length = 1 := by
          have : 0 < c.length := List.length_pos.mpr hne
          omega
        exact h1

theorem pollute_loop_go_probes (probe : List String → Bool) :
    ∀ (fuel : Nat) (c : List String), c.length ≤ fuel →
      (pollute_loop_go probe fuel c).2 ≤ Nat.clog 2 c.length
  | 0, c, _ => by
      rw [pollute_loop_go]
      exact Nat.zero_le _
  | fuel + 1, c, hle => by
      rw [pollute_loop_go]
      split
      · rename_i hlen
        have hlt := pollute_step_lt probe c hlen
        have hhalf := pollute_step_le_half probe c hlen
        have ih := pollute_loop_go_probes probe fuel (pollute_step probe c)
          (by omega)
        have hmono : Nat.clog 2 (pollute_step probe c).length
            ≤ Nat.clog 2 ((c.length + 1) / 2) :=
          Nat.clog_mono_right 2 hhalf
        have hrec : Nat.clog 2 c.length
            = Nat.clog 2 ((c.length + 1) / 2) + 1 := by
          have := Nat.clog_of_two_le (b := 2) (n := c.length)
            (by omega) (by omega)
          simpa using this
        simp only []
        omega
      · simp [Nat.zero_le]

theorem find_target_lt :
    ∀ (tests : List String) (tgt : String) (ix : Nat × String),
      find_target tests tgt = some ix → ix.1 < tests.length
  | [], tgt, ix, h => by simp [find_target] at h
  | t :: ts, tgt, ix, h => by
      rw [find_target] at h
      split at h
      · cases h
        simp
      · cases hrec : find_target ts tgt with
        | none => rw [hrec] at h; cases h
        | some iy =>
            rw [hrec] at h
            cases h
            have := find_target_lt ts tgt iy hrec
            simp
            omega

/-- C4/C10 concrete oracle: the target fails exactly when at least one test
precedes it (so the single candidate is a genuine polluter). -/
def probe_w : List String → Bool := fun l => !l.isEmpty

/-- C4/C10 concrete test list: the target test `"bXb"` is at index 1. -/
def tests_w : List String := ["a", "bXb"]

/-- C4 counterexample: a complete, successful `do_pollute` run with one
candidate makes 3 `pollute_run` invocations (passes-alone check,
fails-with-all check, and the final confirmation; the loop body never runs),
which exceeds the claimed bound `ceil(log2(initialCandidateCount)) + 2 = 2`. -/
theorem do_pollute_probe_counterexample :
    (do_pollute probe_w tests_w "X").probes = 3
    ∧ cand_count tests_w "X" = 1
    ∧ ¬((do_pollute probe_w tests_w "X").probes
        ≤ Nat.clog 2 (cand_count tests_w "X") + 2) := by
  refine ⟨by decide, by decide, ?_⟩
  rw [show cand_count tests_w "X" = 1 from by decide, Nat.clog_one_right,
    show (do_pollute probe_w tests_w "X").probes = 3 from by decide]
  decide

/-- C4 amended: every binary-search iteration strictly shrinks the
candidate list (when it has more than one element), and a whole `do_pollute`
run makes at most `ceil(log2(initialCandidateCount)) + 3` `pollute_run`
invocations: two pre-verification probes, at most
`ceil(log2(initialCandidateCount))` loop probes, and one final
confirmation probe. -/
theorem do_pollute_probe_bound (probe : List String → Bool)
    (tests : List String) (target0 : String) :
    (do_pollute probe tests target0).probes
        ≤ Nat.clog 2 (cand_count tests target0) + 3
    ∧ ∀ c : List String, 1 < c.length →
        (pollute_step probe c).length < c.length := by
  refine ⟨?_, fun c hc => pollute_step_lt probe c hc⟩
  unfold do_pollute cand_count
  cases hf : find_target tests target0 with
  | none => simp
  | some ix =>
      try dsimp only
      by_cases hz : ix.1 = 0
      · simp [hz]
      · rw [if_neg hz]
        by_cases h1 : probe [] = true
        · rw [if_pos h1]
          exact (by omega : (1 : Nat) ≤ Nat.clog 2 ix.1 + 3)
        · rw [if_neg h1]
          by_cases h2 : (!probe (tests.take ix.1)) = true
          · rw [if_pos h2]
            exact (by omega : (2 : Nat) ≤ Nat.clog 2 ix.1 + 3)
          · rw [if_neg h2]
            have hlen : (tests.take ix.1).length = ix.1 := by
              rw [List.length_take]
              have := find_target_lt tests target0 ix hf
              omega
            have hloop := pollute_loop_go_probes probe
              (tests.take ix.1).length (tests.take ix.1) (Nat.le_refl _)
            rw [hlen] at hloop
            have hloop2 : (pollute_loop probe (tests.take ix.1)).2
                ≤ Nat.clog 2 ix.1 := by
              unfold pollute_loop
              rw [hlen]
              exact hloop
            split
            · show 2 + (pollute_loop probe (tests.take ix.1)).2
                  ≤ Nat.clog 2 ix.1 + 3
              omega
            · split
              · show 3 + (pollute_loop probe (tests.take ix.1)).2
                    ≤ Nat.clog 2 ix.1 + 3
                omega
              · show 3 + (pollute_loop probe (tests.take ix.1)).2
                    ≤ Nat.clog 2 ix.1 + 3
                omega

/-- Witness for `do_pollute_probe_bound`: the concrete run satisfies the
amended bound, and one step on a three-element candidate list shrinks it. -/
theorem do_pollute_probe_bound_witness :
    (do_pollute probe_w tests_w "X").probes
        ≤ Nat.clog 2 (cand_count tests_w "X") + 3
    ∧ (pollute_step probe_w ["a", "b", "c"]).length < 3 := by
  refine ⟨(do_pollute_probe_bound probe_w tests_w "X").1, ?_⟩
  have := (do_pollute_probe_bound probe_w tests_w "X").2 ["a", "b", "c"]
    (by decide)
  simpa using this

/-- C10: when the target is found at index `i ≥ 1`, the candidate list
`tests[:i]` is non-empty, the binary-search loop exits with exactly one
candidate remaining, and `do_pollute` can never take the
"No polluter found" (empty-candidates) branch. -/
theorem do_pollute_loop_exits_one (probe : List String → Bool)
    (tests : List String) (target0 : String) (i : Nat) (t : String)
    (hfind : find_target tests target0 = some (i, t)) (hi : 1 ≤ i) :
    tests.take i ≠ []
    ∧ (pollute_loop probe (tests.take i)).1.length = 1
    ∧ (do_pollute probe tests target0).outcome
        ≠ PolluteOutcome.noPolluter := by
  have hilt := find_target_lt tests target0 (i, t) hfind
  have hlen : (tests.take i).length = i := by
    rw [List.length_take]
    omega
  have hne : tests.take i ≠ [] := by
    intro he
    rw [he] at hlen
    simp at hlen
    omega
  have hone := pollute_loop_go_one probe (tests.take i).length
    (tests.take i) hne (Nat.le_refl _)
  refine ⟨hne, hone, ?_⟩
  unfold do_pollute
  rw [hfind]
  dsimp only
  rw [if_neg (by omega : ¬ i = 0)]
  by_cases h1 : probe [] = true
  · rw [if_pos h1]
    decide
  · rw [if_neg h1]
    by_cases h2 : (!probe (tests.take i)) = true
    · rw [if_pos h2]
      decide
    · rw [if_neg h2]
      split
      · rename_i heq
        have heq2 : (pollute_loop_go probe (tests.take i).length
            (tests.take i)).1 = [] := heq
        rw [heq2] at hone
        simp at hone
      · split <;> simp

/-- Witness for `do_pollute_loop_exits_one`: in the concrete run the target
`"bXb"` is found at index 1, the single candidate survives the (empty) loop,
and the run does not end in the "No polluter found" branch. -/
theorem do_pollute_loop_exits_one_witness :
    tests_w.take 1 ≠ []
    ∧ (pollute_loop probe_w (tests_w.take 1)).1.length = 1
    ∧ (do_pollute probe_w tests_w "X").outcome
        ≠ PolluteOutcome.noPolluter :=
  do_pollute_loop_exits_one probe_w tests_w "X" 1 "bXb" (by decide) (by decide)
